import Mathlib

/-!
Shallow embedding of `src/code_include/source_code.py` (sphinx-code-include).

The module resolves a (directive, dotted namespace) pair to published
source-code text: inventory lookup, project-root matching, module-path
construction, page fetch and HTML text extraction. Python strings are
modelled as Lean `String`, dicts as association lists, the Sphinx
application object and the filesystem/network as explicit structures.
Python exceptions are modelled with an explicit result type: declared
error classes become `Res.err`, uncaught faults (ValueError from tuple
unpacking, AttributeError from `None` dereference, IndexError) become
`Res.fault`.
-/

/-- Python `s.split(sep)` for a single-character separator, on character
lists.  `"".split(".") == [""]`, so the empty list maps to `[[]]`. -/
def splitOnChar (c : Char) : List Char → List (List Char)
  | [] => [[]]
  | x :: xs =>
    let r := splitOnChar c xs
    if x == c then [] :: r
    else
      match r with
      | [] => [[x]]
      | y :: ys => (x :: y) :: ys

/-- Python `s.split(c)` on `String`. -/
def pySplit (s : String) (c : Char) : List String :=
  (splitOnChar c s.data).map String.mk

/-- Python `sep.join(parts)`. -/
def pyJoin (sep : String) : List String → String
  | [] => ""
  | [x] => x
  | x :: y :: ys => x ++ sep ++ pyJoin sep (y :: ys)

/-- Python `url, tag = uri.split("#")`: succeeds exactly when the split
yields two parts; any other arity raises ValueError (modelled `none`). -/
def splitHash (s : String) : Option (String × String) :=
  match splitOnChar '#' s.data with
  | [a, b] => some (String.mk a, String.mk b)
  | _ => none

/-- Python `sorted(...)` over strings (lexicographic by code point). -/
def sortStrings (l : List String) : List String :=
  l.mergeSort

mutual

/-- HTML node as seen through BeautifulSoup: an element with a tag name,
an optional `id` attribute, a `class` attribute list and children, or a
bare text node.  Sibling sequences get their own type `HtmlList` so
every traversal below is structurally recursive. -/
inductive Html where
  | elem (tag : String) (idAttr : Option String) (classes : List String) (children : HtmlList)
  | text (s : String)

inductive HtmlList where
  | nil
  | cons (head : Html) (tail : HtmlList)

end

/-- Builds an `HtmlList` from a plain list of nodes. -/
def htmlListOf : List Html → HtmlList
  | [] => .nil
  | h :: t => .cons h (htmlListOf t)

/-- Whether a node matches `soup.find_all("a", {"class": "viewcode-back"})`. -/
def isViewcodeBack : Html → Bool
  | .elem t _ cs _ => t == "a" && cs.contains "viewcode-back"
  | .text _ => false

/-- Effect of `div.decompose()` applied to every `a.viewcode-back` node:
each matching subtree is removed wholesale. -/
def removeBackLinks : HtmlList → HtmlList
  | .nil => .nil
  | .cons (.text s) rest => .cons (.text s) (removeBackLinks rest)
  | .cons (.elem t i c children) rest =>
    if t == "a" && c.contains "viewcode-back" then removeBackLinks rest
    else .cons (.elem t i c (removeBackLinks children)) (removeBackLinks rest)
termination_by structural l => l

/-- `soup.find("div", {"id": tag})`: first `div` in document pre-order
whose `id` attribute equals `tag`. -/
def findDivById : HtmlList → String → Option Html
  | .nil, _ => none
  | .cons (.text _) rest, a => findDivById rest a
  | .cons (.elem t i c children) rest, a =>
    if t == "div" && i == some a then some (.elem t i c children)
    else
      match findDivById children a with
      | some n => some n
      | none => findDivById rest a
termination_by structural l _ => l

/-- `node.getText()` over a node list: concatenation of all text nodes. -/
def getTextList : HtmlList → String
  | .nil => ""
  | .cons (.text s) rest => s ++ getTextList rest
  | .cons (.elem _ _ _ children) rest => getTextList children ++ getTextList rest
termination_by structural l => l

/-- `node.getText()` on a single node. -/
def getText (h : Html) : String :=
  getTextList (.cons h .nil)

/-- Whether any `div` with the given `id` occurs in the forest. -/
def hasDivId : HtmlList → String → Bool
  | .nil, _ => false
  | .cons (.text _) rest, a => hasDivId rest a
  | .cons (.elem t i _ children) rest, a =>
    (t == "div" && i == some a) || hasDivId children a || hasDivId rest a
termination_by structural l _ => l

/-- Error classes raised by the module.  Payload lists carry the
`sorted(...)` option listings embedded in the Python messages. -/
inductive CodeError where
  | runtimeError
  | environmentError
  | missingDirective (directive : String) (options : List String)
  | missingNamespace (nspace : String) (options : List String)
  | rootNotFound (url : String) (roots : List String)
  | notFoundFile (uri : String)
  | notFoundUrl (uri : String)
deriving DecidableEq

/-- Outcome of a Python call: normal return, a declared error class, or
an uncaught fault (AttributeError / ValueError / IndexError). -/
inductive Res (α : Type) where
  | ok (a : α)
  | err (e : CodeError)
  | fault
deriving DecidableEq

/-- Value side of one `intersphinx_mapping` entry: either a single
string or a sequence (tuple/list) of strings. -/
inductive MappingValue where
  | str (s : String)
  | seq (items : List String)

/-- `dict[str, dict[str, tuple[str, str, str, str]]]` inventory, as an
association list with unique keys. -/
abbrev Inventory := List (String × List (String × (String × String × String × String)))

/-- The Sphinx `APPLICATION` global.  `none` in a field models the
AttributeError raised when the attribute chain is missing. -/
structure App where
  intersphinx_mapping : Option (List (String × MappingValue))
  inventory : Option Inventory

/-- External world for `_get_source_code`: local files (POSIX absolute
paths; `none` when `os.path.isfile` is false), network fetches (`none`
when `urllib2.urlopen(...).read()` raises anything), and the
`bs4.BeautifulSoup(..., "html.parser")` parse of raw text. -/
structure Env where
  files : String → Option String
  net : String → Option String
  parse : String → HtmlList

/-- Python `s.startswith(p)` on character lists. -/
def startsWithChars : List Char → List Char → Bool
  | _, [] => true
  | [], _ :: _ => false
  | a :: as, b :: bs => a == b && startsWithChars as bs

/-- Python `s.startswith(p)` on `String`. -/
def strStartsWith (s p : String) : Bool :=
  startsWithChars s.data p.data

/-- POSIX `os.path.isabs`, i.e. `s.startswith("/")`: true exactly when
the first character is `/`. -/
def isAbs (s : String) : Bool :=
  match s.data with
  | [] => false
  | c :: _ => c == '/'

/-- Python dict access `d[k]` as first-match association lookup. -/
def lookupAssoc {α : Type} : List (String × α) → String → Option α
  | [], _ => none
  | (k, v) :: rest, key => if k == key then some v else lookupAssoc rest key

/-- Python `set.add`: membership-based insertion (the model fixes
insertion order as the set's iteration order). -/
def setAdd (l : List String) (s : String) : List String :=
  if s ∈ l then l else l ++ [s]

/-- Loop body of `_get_all_intersphinx_roots`: for each mapping entry,
add `list(value)[0]` when the value is not a string (IndexError on an
empty sequence), otherwise add the key. -/
def addRoots : List (String × MappingValue) → List String → Res (List String)
  | [], acc => .ok acc
  | (key, .str _) :: rest, acc => addRoots rest (setAdd acc key)
  | (_, .seq []) :: _, _ => .fault
  | (_, .seq (first :: _)) :: rest, acc => addRoots rest (setAdd acc first)

/-- `_get_all_intersphinx_roots`: every root the user registered with
intersphinx.  A missing application or `intersphinx_mapping` attribute
raises `EnvironmentError`. -/
def _get_all_intersphinx_roots (app : Option App) : Res (List String) :=
  match app with
  | none => .err .environmentError
  | some a =>
    match a.intersphinx_mapping with
    | none => .err .environmentError
    | some mappings => addRoots mappings []

/-- `_get_app_inventory`: the cached intersphinx inventory.  A falsy
`APPLICATION` yields an empty dict; a missing attribute chain raises
`EnvironmentError`. -/
def _get_app_inventory (app : Option App) : Res Inventory :=
  match app with
  | none => .ok []
  | some a =>
    match a.inventory with
    | none => .err .environmentError
    | some inv => .ok inv

/-- `_get_module_tag`: project-relative `_modules` page path plus
in-page tag for a namespace, by directive.  `tokens.getLastD ""` stands
for Python `tokens[-1]`; `pySplit` never returns `[]`, so the default
is unreachable. -/
def _get_module_tag (nspace directive : String) : String × String :=
  let tokens := pySplit nspace '.'
  if directive == "py:method" then
    let base := pyJoin "/" (tokens.take (tokens.length - 2))
    ("_modules/" ++ base ++ ".html", pyJoin "." (tokens.drop (tokens.length - 2)))
  else
    let base := pyJoin "/" (tokens.take (tokens.length - 1))
    ("_modules/" ++ base ++ ".html", tokens.getLastD "")

/-- `_get_project_url_root`: first root in iteration order that is a
leading substring of `uri`; `""` when none is. -/
def _get_project_url_root (uri : String) : List String → String
  | [] => ""
  | root :: rest =>
    if strStartsWith uri root then root else _get_project_url_root uri rest

/-- Scrape step of `_get_source_code`: decompose every
`a.viewcode-back` node, then `soup.find("div", {"id": tag}).getText()`.
A missing `div` makes `soup.find` return `None` and `.getText()` raise
AttributeError, modelled as `Res.fault`. -/
def extractFromHtml (doc : HtmlList) (tag : String) : Res String :=
  match findDivById (removeBackLinks doc) tag with
  | none => .fault
  | some node => .ok (getText node)

/-- `_get_source_code`: fetch the page behind `uri` (local file when
absolute, urllib2 otherwise) and scrape the tagged source block. -/
def _get_source_code (env : Env) (uri tag : String) : Res String :=
  if isAbs uri then
    match env.files uri with
    | none => .err (.notFoundFile uri)
    | some contents => extractFromHtml (env.parse contents) tag
  else
    match env.net uri with
    | none => .err (.notFoundUrl uri)
    | some contents => extractFromHtml (env.parse contents) tag

/-- Lookup stage of `get_source_code` (lines 182-198): directive lookup
then namespace lookup, unpacking the third tuple slot as the URI. -/
def lookupStage (cache : Inventory) (directive nspace : String) : Res String :=
  match lookupAssoc cache directive with
  | none => .err (.missingDirective directive (sortStrings (cache.map Prod.fst)))
  | some typed =>
    match lookupAssoc typed nspace with
    | none => .err (.missingNamespace nspace (sortStrings (typed.map Prod.fst)))
    | some (_, _, uri, _) => .ok uri

/-- `get_source_code`: the full pipeline.  An empty cache raises
RuntimeError; the inventory URI is split on `#`; the URL half is
matched against the intersphinx roots; the tag half and directive give
the `_modules` page; the page is fetched and scraped. -/
def get_source_code (app : Option App) (env : Env) (directive nspace : String) : Res String :=
  match _get_app_inventory app with
  | .err e => .err e
  | .fault => .fault
  | .ok cache =>
    if cache.isEmpty then .err .runtimeError
    else
      match lookupStage cache directive nspace with
      | .err e => .err e
      | .fault => .fault
      | .ok uri =>
        match splitHash uri with
        | none => .fault
        | some (url, tag) =>
          match _get_all_intersphinx_roots app with
          | .err e => .err e
          | .fault => .fault
          | .ok available_roots =>
            let root := _get_project_url_root url available_roots
            if root == "" then
              .err (.rootNotFound url (sortStrings available_roots))
            else
              let (module_path, tag2) := _get_module_tag tag directive
              let module_url := root ++ "/" ++ module_path
              _get_source_code env module_url tag2

/-- Inventory entirely unavailable: no application object, a missing
inventory attribute, or an empty cached inventory dict. -/
def inventoryUnavailable : Option App → Prop
  | none => True
  | some a => a.inventory = none ∨ a.inventory = some []

/-! Supporting lemmas. -/

theorem string_mk_data (s : String) : String.mk s.data = s := by
  cases s
  rfl

theorem string_data_append (a b : String) : (a ++ b).data = a.data ++ b.data := by
  cases a
  cases b
  rfl

theorem sortStrings_perm (l : List String) : (sortStrings l).Perm l :=
  List.mergeSort_perm l _

theorem sortStrings_sorted (l : List String) : (sortStrings l).Sorted (· ≤ ·) :=
  List.sorted_mergeSort' l

theorem lookupAssoc_eq_none {α : Type} (l : List (String × α)) (k : String) :
    lookupAssoc l k = none ↔ k ∉ l.map Prod.fst := by
  induction l with
  | nil => simp [lookupAssoc]
  | cons p rest ih =>
    obtain ⟨k', v⟩ := p
    by_cases h : k' = k
    · subst h
      simp [lookupAssoc]
    · simp only [lookupAssoc, beq_iff_eq, if_neg h, List.map_cons, List.mem_cons, ih]
      constructor
      · intro hn hc
        rcases hc with hc | hc
        · exact h hc.symm
        · exact hn hc
      · intro hn hc
        exact hn (Or.inr hc)

theorem lookupAssoc_of_mem {α : Type} {l : List (String × α)} {k : String} {v : α}
    (hnd : (l.map Prod.fst).Nodup) (hm : (k, v) ∈ l) : lookupAssoc l k = some v := by
  induction l with
  | nil => cases hm
  | cons p rest ih =>
    obtain ⟨k', v'⟩ := p
    simp only [List.map_cons, List.nodup_cons] at hnd
    rcases List.mem_cons.mp hm with h | h
    · rw [Prod.mk.injEq] at h
      obtain ⟨h1, h2⟩ := h
      subst h1
      subst h2
      simp [lookupAssoc]
    · have hk : k' ≠ k := by
        intro he
        subst he
        exact hnd.1 (List.mem_map.mpr ⟨(k', v), h, rfl⟩)
      simp only [lookupAssoc, beq_iff_eq, if_neg hk]
      exact ih hnd.2 h

theorem get_project_url_root_eq_find (uri : String) (roots : List String) :
    _get_project_url_root uri roots = ((roots.find? (fun r => strStartsWith uri r)).getD "") := by
  induction roots with
  | nil => rfl
  | cons r rest ih =>
    by_cases h : strStartsWith uri r
    · rw [_get_project_url_root, if_pos h, List.find?_cons_of_pos _ h]
      rfl
    · rw [_get_project_url_root, if_neg h, ih,
        List.find?_cons_of_neg _ (by simpa using h)]

theorem extractFromHtml_ne_err (doc : HtmlList) (tag : String) (e : CodeError) :
    extractFromHtml doc tag ≠ Res.err e := by
  rw [extractFromHtml]
  cases findDivById (removeBackLinks doc) tag <;> simp

theorem splitOnChar_of_not_mem {c : Char} {l : List Char} (h : c ∉ l) :
    splitOnChar c l = [l] := by
  induction l with
  | nil => rfl
  | cons x xs ih =>
    have hx : ¬(x == c) := by
      simp only [beq_iff_eq]
      intro he
      exact h (he ▸ List.mem_cons_self x xs)
    have hxs : c ∉ xs := fun hm => h (List.mem_cons_of_mem x hm)
    rw [splitOnChar, if_neg hx, ih hxs]

theorem splitOnChar_append {c : Char} {a : List Char} (b : List Char) (ha : c ∉ a) :
    splitOnChar c (a ++ c :: b) = a :: splitOnChar c b := by
  induction a with
  | nil =>
    simp only [List.nil_append]
    rw [splitOnChar, if_pos (by simp)]
  | cons x xs ih =>
    have hx : ¬(x == c) := by
      simp only [beq_iff_eq]
      intro he
      exact ha (he ▸ List.mem_cons_self x xs)
    have hxs : c ∉ xs := fun hm => ha (List.mem_cons_of_mem x hm)
    rw [List.cons_append, splitOnChar, if_neg hx, ih hxs]

theorem splitOnChar_count_one {c : Char} {l : List Char} (h : l.count c = 1) :
    ∃ a b, splitOnChar c l = [a, b] ∧ l = a ++ c :: b ∧ c ∉ a ∧ c ∉ b := by
  induction l with
  | nil => simp at h
  | cons x xs ih =>
    by_cases hx : x = c
    · subst hx
      have hz : xs.count x = 0 := by
        have := List.count_cons_self x xs
        omega
      have hnm : x ∉ xs := List.count_eq_zero.mp hz
      refine ⟨[], xs, ?_, by simp, by simp, hnm⟩
      rw [splitOnChar, if_pos (by simp), splitOnChar_of_not_mem hnm]
    · have hcount : xs.count c = 1 := by
        rwa [List.count_cons, if_neg (by simpa using hx), Nat.add_zero] at h
      obtain ⟨a, b, hs, he, hna, hnb⟩ := ih hcount
      refine ⟨x :: a, b, ?_, by simp [he], ?_, hnb⟩
      · rw [splitOnChar, if_neg (by simpa using hx), hs]
      · intro hm
        rcases List.mem_cons.mp hm with hm | hm
        · exact hx hm.symm
        · exact hna hm

theorem pySplit_pyJoin_dot {ts : List String} (hne : ts ≠ [])
    (hc : ∀ t ∈ ts, '.' ∉ t.data) :
    pySplit (pyJoin "." ts) '.' = ts := by
  induction ts with
  | nil => cases hne rfl
  | cons x ys ih =>
    cases ys with
    | nil =>
      show pySplit (pyJoin "." [x]) '.' = [x]
      rw [pyJoin, pySplit, splitOnChar_of_not_mem (hc x (by simp)), List.map_cons,
        List.map_nil, string_mk_data]
    | cons z zs =>
      have hd : (x ++ "." ++ pyJoin "." (z :: zs)).data
          = x.data ++ '.' :: (pyJoin "." (z :: zs)).data := by
        rw [string_data_append, string_data_append, List.append_assoc]
        rfl
      have hrest : pySplit (pyJoin "." (z :: zs)) '.' = z :: zs :=
        ih (by simp) (fun t ht => hc t (List.mem_cons_of_mem x ht))
      rw [pyJoin, pySplit, hd, splitOnChar_append _ (hc x (by simp))]
      rw [List.map_cons, string_mk_data]
      have : (splitOnChar '.' (pyJoin "." (z :: zs)).data).map String.mk = z :: zs := hrest
      rw [this]

theorem findDivById_eq_none {l : HtmlList} {a : String} (h : hasDivId l a = false) :
    findDivById l a = none := by
  induction l, a using hasDivId.induct with
  | case1 a => simp [findDivById]
  | case2 s rest a ih =>
    rw [hasDivId] at h
    rw [findDivById]
    exact ih h
  | case3 t i c children rest a ih1 ih2 =>
    rw [hasDivId] at h
    simp only [Bool.or_eq_false_iff] at h
    obtain ⟨⟨h1, h2⟩, h3⟩ := h
    rw [findDivById, if_neg (by simp [h1]), ih1 h2, ih2 h3]

theorem hasDivId_removeBackLinks {l : HtmlList} {a : String} (h : hasDivId l a = false) :
    hasDivId (removeBackLinks l) a = false := by
  induction l using removeBackLinks.induct with
  | case1 =>
    rw [removeBackLinks]
    exact h
  | case2 s rest ih =>
    rw [hasDivId] at h
    rw [removeBackLinks, hasDivId]
    exact ih h
  | case3 t i c children rest hback ih =>
    rw [hasDivId] at h
    simp only [Bool.or_eq_false_iff] at h
    rw [removeBackLinks, if_pos hback]
    exact ih h.2
  | case4 t i c children rest hback ih1 ih2 =>
    rw [hasDivId] at h
    simp only [Bool.or_eq_false_iff] at h
    obtain ⟨⟨h1, h2⟩, h3⟩ := h
    rw [removeBackLinks, if_neg hback, hasDivId]
    simp only [Bool.or_eq_false_iff]
    exact ⟨⟨h1, ih1 h2⟩, ih2 h3⟩

theorem extractFromHtml_fault {doc : HtmlList} {tag : String}
    (h : hasDivId doc tag = false) : extractFromHtml doc tag = Res.fault := by
  rw [extractFromHtml, findDivById_eq_none (hasDivId_removeBackLinks h)]

theorem mem_setAdd_self (l : List String) (s : String) : s ∈ setAdd l s := by
  rw [setAdd]
  by_cases h : s ∈ l
  · rwa [if_pos h]
  · rw [if_neg h]
    simp

theorem mem_setAdd_of_mem {l : List String} {x : String} (s : String) (h : x ∈ l) :
    x ∈ setAdd l s := by
  rw [setAdd]
  by_cases hs : s ∈ l
  · rwa [if_pos hs]
  · rw [if_neg hs]
    simp [h]

theorem addRoots_mem_of_mem_acc {l : List (String × MappingValue)} {acc roots : List String}
    {x : String} (h : addRoots l acc = Res.ok roots) (hx : x ∈ acc) : x ∈ roots := by
  induction l generalizing acc with
  | nil =>
    rw [addRoots] at h
    cases h
    exact hx
  | cons p rest ih =>
    obtain ⟨key, v⟩ := p
    cases v with
    | str s =>
      rw [addRoots] at h
      exact ih h (mem_setAdd_of_mem key hx)
    | seq items =>
      cases items with
      | nil => rw [addRoots] at h; cases h
      | cons first others =>
        rw [addRoots] at h
        exact ih h (mem_setAdd_of_mem first hx)

theorem addRoots_contribution {l : List (String × MappingValue)} {acc roots : List String}
    (h : addRoots l acc = Res.ok roots) :
    ∀ key v, (key, v) ∈ l →
      (∀ s, v = MappingValue.str s → key ∈ roots) ∧
      (∀ first others, v = MappingValue.seq (first :: others) → first ∈ roots) := by
  induction l generalizing acc with
  | nil => intro key v hm; cases hm
  | cons p rest ih =>
    obtain ⟨key', v'⟩ := p
    intro key v hm
    rcases List.mem_cons.mp hm with heq | hmem
    · rw [Prod.mk.injEq] at heq
      obtain ⟨h1, h2⟩ := heq
      subst h1
      subst h2
      constructor
      · intro s hs
        subst hs
        rw [addRoots] at h
        exact addRoots_mem_of_mem_acc h (mem_setAdd_self acc key)
      · intro first others hs
        subst hs
        rw [addRoots] at h
        exact addRoots_mem_of_mem_acc h (mem_setAdd_self acc first)
    · cases v' with
      | str s =>
        rw [addRoots] at h
        exact ih h key v hmem
      | seq items =>
        cases items with
        | nil => rw [addRoots] at h; cases h
        | cons first others =>
          rw [addRoots] at h
          exact ih h key v hmem

theorem extractFromHtml_eq_elim (doc : HtmlList) (tag : String) :
    extractFromHtml doc tag
      = (findDivById (removeBackLinks doc) tag).elim Res.fault (fun node => Res.ok (getText node)) := by
  cases h : findDivById (removeBackLinks doc) tag <;> simp [extractFromHtml, h]

/-! Claim theorems. -/

/-- C2: for anchor-token lists, `_get_module_tag` under the method tag
joins all tokens but the last two with `/` into
`_modules/<base>.html` and pairs it with the last two tokens joined by
`.`; under any other tag it uses all tokens but the last and pairs with
the last token alone; in particular
`["pkg","mod","Cls","meth"]` under `py:method` gives
`("_modules/pkg/mod.html", "Cls.meth")` and `["pkg","mod","func"]`
under `py:function` gives `("_modules/pkg/mod.html", "func")`. -/
theorem claim2_build_path (ts : List String) (hne : ts ≠ [])
    (hdot : ∀ t ∈ ts, '.' ∉ t.data) :
    _get_module_tag (pyJoin "." ts) "py:method"
      = ("_modules/" ++ pyJoin "/" (ts.take (ts.length - 2)) ++ ".html",
         pyJoin "." (ts.drop (ts.length - 2)))
    ∧ (∀ directive, directive ≠ "py:method" →
        _get_module_tag (pyJoin "." ts) directive
          = ("_modules/" ++ pyJoin "/" (ts.take (ts.length - 1)) ++ ".html",
             ts.getLastD ""))
    ∧ _get_module_tag "pkg.mod.Cls.meth" "py:method" = ("_modules/pkg/mod.html", "Cls.meth")
    ∧ _get_module_tag "pkg.mod.func" "py:function" = ("_modules/pkg/mod.html", "func") := by
  refine ⟨?_, ?_, by decide, by decide⟩
  · simp [_get_module_tag, pySplit_pyJoin_dot hne hdot]
  · intro directive hd
    simp [_get_module_tag, pySplit_pyJoin_dot hne hdot, hd]

/-- C2 witness: the method-tag clause applied to the concrete token
list `["pkg","mod","Cls","meth"]`. -/
theorem claim2_build_path_witness :
    _get_module_tag (pyJoin "." ["pkg", "mod", "Cls", "meth"]) "py:method"
      = ("_modules/pkg/mod.html", "Cls.meth") :=
  ((claim2_build_path ["pkg", "mod", "Cls", "meth"] (by decide) (by decide)).1).trans
    (by decide)

/-- C8: a location URI whose character data contains exactly one `#`
is split by `splitHash` (the model of `uri.split("#")` with two-way
unpacking) into the text before and after that `#`, without fault. -/
theorem claim8_split_hash (uri : String) (h : uri.data.count '#' = 1) :
    ∃ base anchor : String, splitHash uri = some (base, anchor) ∧
      uri.data = base.data ++ '#' :: anchor.data ∧
      '#' ∉ base.data ∧ '#' ∉ anchor.data := by
  obtain ⟨a, b, hs, he, hna, hnb⟩ := splitOnChar_count_one h
  refine ⟨String.mk a, String.mk b, ?_, he, hna, hnb⟩
  rw [splitHash, hs]

/-- C8 witness: the split succeeds on the concrete URI `"a#b"`. -/
theorem claim8_split_hash_witness :
    ("a#b".data.count '#' = 1) ∧
      ∃ base anchor : String, splitHash "a#b" = some (base, anchor) ∧
        "a#b".data = base.data ++ '#' :: anchor.data ∧
        '#' ∉ base.data ∧ '#' ∉ anchor.data :=
  ⟨by decide, claim8_split_hash "a#b" (by decide)⟩

/-- C9: `_get_module_tag` is total — it returns a (page path, anchor)
pair for every namespace and directive — and an anchor of fewer than
two dot-tokens under the method rule yields the degenerate page path
`"_modules/.html"` with an empty path component rather than an
error. -/
theorem claim9_total_build_path (nspace directive : String) :
    (∃ p a, _get_module_tag nspace directive = (p, a))
    ∧ ((pySplit nspace '.').length < 2 →
        (_get_module_tag nspace "py:method").1 = "_modules/.html") := by
  refine ⟨⟨(_get_module_tag nspace directive).1, (_get_module_tag nspace directive).2, rfl⟩, ?_⟩
  intro hlen
  have h0 : (pySplit nspace '.').length - 2 = 0 := by omega
  simp only [_get_module_tag, h0, List.take_zero, beq_self_eq_true, if_true]
  rfl

/-- C9 witness: the degenerate path at the single-token namespace
`"foo"`. -/
theorem claim9_total_build_path_witness :
    ((pySplit "foo" '.').length < 2) ∧
      (_get_module_tag "foo" "py:method").1 = "_modules/.html" :=
  ⟨by decide, (claim9_total_build_path "foo" "py:method").2 (by decide)⟩

/-- C1: for every (role tag, symbol) pair present in the inventory the
lookup stage of `get_source_code` returns exactly the stored 4-tuple's
third component (the location URI); a missing role tag yields
`missingDirective` with the sorted list of all present role tags; a
present role tag with a missing symbol yields `missingNamespace` with
the sorted list of all symbols under that role tag; and either error is
what `get_source_code` itself reports. -/
theorem claim1_inventory_lookup (cache : Inventory) (d n : String)
    (hnd : (cache.map Prod.fst).Nodup) :
    (∀ typed tup, (d, typed) ∈ cache → (typed.map Prod.fst).Nodup → (n, tup) ∈ typed →
        lookupStage cache d n = Res.ok tup.2.2.1)
    ∧ (d ∉ cache.map Prod.fst →
        lookupStage cache d n
            = Res.err (.missingDirective d (sortStrings (cache.map Prod.fst)))
          ∧ (sortStrings (cache.map Prod.fst)).Perm (cache.map Prod.fst)
          ∧ (sortStrings (cache.map Prod.fst)).Sorted (· ≤ ·))
    ∧ (∀ typed, (d, typed) ∈ cache → n ∉ typed.map Prod.fst →
        lookupStage cache d n
            = Res.err (.missingNamespace n (sortStrings (typed.map Prod.fst)))
          ∧ (sortStrings (typed.map Prod.fst)).Perm (typed.map Prod.fst)
          ∧ (sortStrings (typed.map Prod.fst)).Sorted (· ≤ ·))
    ∧ (∀ (app : Option App) (env : Env) (e : CodeError),
        _get_app_inventory app = Res.ok cache → cache ≠ [] →
        lookupStage cache d n = Res.err e →
        get_source_code app env d n = Res.err e) := by
  refine ⟨?_, ?_, ?_, ?_⟩
  · intro typed tup hmem hnd2 hmem2
    obtain ⟨p1, p2, uri, p4⟩ := tup
    simp only [lookupStage, lookupAssoc_of_mem hnd hmem, lookupAssoc_of_mem hnd2 hmem2]
  · intro habs
    refine ⟨?_, sortStrings_perm _, sortStrings_sorted _⟩
    simp only [lookupStage, (lookupAssoc_eq_none _ _).mpr habs]
  · intro typed hmem habs
    refine ⟨?_, sortStrings_perm _, sortStrings_sorted _⟩
    simp only [lookupStage, lookupAssoc_of_mem hnd hmem, (lookupAssoc_eq_none _ _).mpr habs]
  · intro app env e hinv hne herr
    simp only [get_source_code, hinv, herr]
    rw [if_neg (by simpa [List.isEmpty_eq_true] using hne)]

/-- C1 witness: the success clause on a concrete one-entry inventory. -/
theorem claim1_inventory_lookup_witness :
    lookupStage [("py:function", [("pkg.mod.f", ("P", "1", "http://base/page#pkg.mod.f", "-"))])]
        "py:function" "pkg.mod.f"
      = Res.ok "http://base/page#pkg.mod.f" :=
  (claim1_inventory_lookup
      [("py:function", [("pkg.mod.f", ("P", "1", "http://base/page#pkg.mod.f", "-"))])]
      "py:function" "pkg.mod.f" (by decide)).1
    [("pkg.mod.f", ("P", "1", "http://base/page#pkg.mod.f", "-"))]
    ("P", "1", "http://base/page#pkg.mod.f", "-")
    (by decide) (by decide) (by decide)

/-- C7: whenever the external inventory is entirely unavailable the
pipeline fails with a configuration-kind error (RuntimeError or
EnvironmentError), and the failure does not depend on the requested
role tag or symbol — no lookup is attempted. -/
theorem claim7_config_error (app : Option App) (env : Env) (d n : String)
    (h : inventoryUnavailable app) :
    (get_source_code app env d n = Res.err CodeError.runtimeError
      ∨ get_source_code app env d n = Res.err CodeError.environmentError)
    ∧ (∀ d' n', get_source_code app env d' n' = get_source_code app env d n) := by
  cases app with
  | none => exact ⟨Or.inl rfl, fun d' n' => rfl⟩
  | some a =>
    obtain ⟨m, inv⟩ := a
    cases inv with
    | none => exact ⟨Or.inr rfl, fun d' n' => rfl⟩
    | some l =>
      cases l with
      | nil => exact ⟨Or.inl rfl, fun d' n' => rfl⟩
      | cons x xs =>
        exfalso
        rcases h with h1 | h1 <;> simp at h1

/-- C7 witness: the missing-application case at concrete arguments. -/
theorem claim7_config_error_witness :
    get_source_code none ⟨fun _ => none, fun _ => none, fun _ => HtmlList.nil⟩ "py:class" "x"
        = Res.err CodeError.runtimeError
      ∨ get_source_code none ⟨fun _ => none, fun _ => none, fun _ => HtmlList.nil⟩ "py:class" "x"
        = Res.err CodeError.environmentError :=
  (claim7_config_error none ⟨fun _ => none, fun _ => none, fun _ => HtmlList.nil⟩ "py:class" "x"
    trivial).1

/-- C3 counterexample: for the single-entry mapping
`{"projA": "http://value"}` whose value is a single string, the
computed root set is `{"projA"}` (the key), and the value itself is
not in it — refuting the claim that the value is the root. -/
theorem claim3_counterexample :
    _get_all_intersphinx_roots
        (some ⟨some [("projA", MappingValue.str "http://value")], none⟩)
      = Res.ok ["projA"]
    ∧ "http://value" ∉ (["projA"] : List String) := by
  exact ⟨rfl, by decide⟩

/-- C3 amended: for every configured mapping entry, the root set
contains the entry's KEY when the value is a single string, and the
value's first element when the value is a non-empty sequence. -/
theorem claim3_roots_amended (a : App) (mappings : List (String × MappingValue))
    (roots : List String)
    (hm : a.intersphinx_mapping = some mappings)
    (hok : _get_all_intersphinx_roots (some a) = Res.ok roots) :
    ∀ key v, (key, v) ∈ mappings →
      (∀ s, v = MappingValue.str s → key ∈ roots) ∧
      (∀ first others, v = MappingValue.seq (first :: others) → first ∈ roots) := by
  rw [_get_all_intersphinx_roots, hm] at hok
  exact addRoots_contribution hok

/-- C3 amended witness: both clauses on a concrete two-entry mapping. -/
theorem claim3_roots_amended_witness :
    ("k" ∈ ["k", "r"] ∧ "r" ∈ ["k", "r"]) :=
  ⟨(claim3_roots_amended
      ⟨some [("k", MappingValue.str "v"), ("p", MappingValue.seq ["r", "i"])], none⟩
      [("k", MappingValue.str "v"), ("p", MappingValue.seq ["r", "i"])]
      ["k", "r"] rfl rfl "k" (MappingValue.str "v") (by constructor)).1 "v" rfl,
   ((claim3_roots_amended
      ⟨some [("k", MappingValue.str "v"), ("p", MappingValue.seq ["r", "i"])], none⟩
      [("k", MappingValue.str "v"), ("p", MappingValue.seq ["r", "i"])]
      ["k", "r"] rfl rfl "p" (MappingValue.seq ["r", "i"])
      (by exact List.mem_cons_of_mem _ (List.mem_cons_self _ _))).2) "r" ["i"] rfl⟩

/-- C4: root resolution returns the first root in iteration order that
is a literal string-prefix of the base URL (`List.find?`, not a
longest-match), and when no root matches the pipeline fails with
`rootNotFound` whose payload lists every candidate root, sorted. -/
theorem claim4_root_resolution :
    (∀ uri roots, _get_project_url_root uri roots
        = ((roots.find? (fun r => strStartsWith uri r)).getD ""))
    ∧ (∀ (app : Option App) (env : Env) (d n : String) (cache : Inventory)
        (uri url tag : String) (roots : List String),
        _get_app_inventory app = Res.ok cache → cache ≠ [] →
        lookupStage cache d n = Res.ok uri →
        splitHash uri = some (url, tag) →
        _get_all_intersphinx_roots app = Res.ok roots →
        (∀ r ∈ roots, strStartsWith url r = false) →
        get_source_code app env d n
            = Res.err (.rootNotFound url (sortStrings roots))
          ∧ (sortStrings roots).Perm roots
          ∧ (sortStrings roots).Sorted (· ≤ ·)) := by
  refine ⟨get_project_url_root_eq_find, ?_⟩
  intro app env d n cache uri url tag roots h1 h2 h3 h4 h5 h6
  have hnone : roots.find? (fun r => strStartsWith url r) = none :=
    List.find?_eq_none.mpr (by intro x hx; simp [h6 x hx])
  have hroot : _get_project_url_root url roots = "" := by
    rw [get_project_url_root_eq_find, hnone]
    rfl
  refine ⟨?_, sortStrings_perm _, sortStrings_sorted _⟩
  simp only [get_source_code, h1]
  rw [if_neg (by simpa [List.isEmpty_eq_true] using h2)]
  simp only [h3, h4, h5, hroot]
  simp

/-- C5: for an absolute local path, `_get_source_code` fails with
`notFoundFile` exactly when the file does not exist and otherwise
passes the file's full parsed contents to extraction; for any other
page reference it uses the network and fails with `notFoundUrl`
exactly when retrieval raises, all failure modes collapsed into that
one error kind. -/
theorem claim5_fetch (env : Env) (uri tag : String) :
    (isAbs uri = true →
      ((_get_source_code env uri tag = Res.err (.notFoundFile uri)) ↔ env.files uri = none)
      ∧ (∀ c, env.files uri = some c →
          _get_source_code env uri tag = extractFromHtml (env.parse c) tag))
    ∧ (isAbs uri = false →
      ((_get_source_code env uri tag = Res.err (.notFoundUrl uri)) ↔ env.net uri = none)
      ∧ (∀ c, env.net uri = some c →
          _get_source_code env uri tag = extractFromHtml (env.parse c) tag)) := by
  constructor
  · intro habs
    refine ⟨⟨?_, ?_⟩, ?_⟩
    · intro heq
      cases hf : env.files uri with
      | none => rfl
      | some c =>
        rw [_get_source_code, if_pos habs, hf] at heq
        exact absurd heq (extractFromHtml_ne_err _ _ _)
    · intro hf
      rw [_get_source_code, if_pos habs, hf]
    · intro c hf
      rw [_get_source_code, if_pos habs, hf]
  · intro habs
    refine ⟨⟨?_, ?_⟩, ?_⟩
    · intro heq
      cases hf : env.net uri with
      | none => rfl
      | some c =>
        rw [_get_source_code, if_neg (by simp [habs]), hf] at heq
        exact absurd heq (extractFromHtml_ne_err _ _ _)
    · intro hf
      rw [_get_source_code, if_neg (by simp [habs]), hf]
    · intro c hf
      rw [_get_source_code, if_neg (by simp [habs]), hf]

/-- C5 witness: a missing absolute path fails with `notFoundFile`. -/
theorem claim5_fetch_witness :
    _get_source_code ⟨fun _ => none, fun _ => none, fun _ => HtmlList.nil⟩ "/missing.html" "t"
      = Res.err (.notFoundFile "/missing.html") :=
  (((claim5_fetch ⟨fun _ => none, fun _ => none, fun _ => HtmlList.nil⟩ "/missing.html" "t").1
      (by decide)).1).mpr rfl


/-- C6 counterexample: a page whose only element carrying the
requested identifier is a `span` (not a `div`): extraction faults
instead of returning that element's text `"code"`, refuting the claim
that the text of "the element whose identifier equals the requested
anchor" is returned for every document. -/
theorem claim6_counterexample :
    extractFromHtml (htmlListOf [Html.elem "span" (some "x") [] (htmlListOf [Html.text "code"])]) "x" = Res.fault
    ∧ extractFromHtml (htmlListOf [Html.elem "span" (some "x") [] (htmlListOf [Html.text "code"])]) "x"
        ≠ Res.ok "code" := by
  have h : extractFromHtml (htmlListOf [Html.elem "span" (some "x") [] (htmlListOf [Html.text "code"])]) "x"
      = Res.fault := by
    simp [extractFromHtml, removeBackLinks, findDivById]
  refine ⟨h, ?_⟩
  rw [h]
  simp

/-- C6 amended: extraction first removes every anchor element carrying
the back-link decoration class and then returns the markup-free text of
the first DIV element whose identifier equals the requested anchor,
faulting when no such div exists. -/
theorem claim6_extraction_amended (env : Env) (uri anchor c : String)
    (hfetch : (if isAbs uri then env.files uri else env.net uri) = some c) :
    _get_source_code env uri anchor
      = (findDivById (removeBackLinks (env.parse c)) anchor).elim Res.fault
          (fun node => Res.ok (getText node)) := by
  by_cases habs : isAbs uri = true
  · rw [if_pos habs] at hfetch
    rw [_get_source_code, if_pos habs, hfetch]
    exact extractFromHtml_eq_elim _ _
  · rw [if_neg habs] at hfetch
    rw [_get_source_code, if_neg habs, hfetch]
    exact extractFromHtml_eq_elim _ _

/-- C6 amended witness: on a local page holding
`<div id="Cls.meth">code</div><a class="viewcode-back">back</a>`,
extraction for anchor `Cls.meth` returns `"code"` with no trace of the
back-link text. -/
theorem claim6_extraction_amended_witness :
    _get_source_code
        ⟨fun u => if u = "/p.html" then some "raw" else none, fun _ => none,
          fun _ => htmlListOf
            [Html.elem "div" (some "Cls.meth") [] (htmlListOf [Html.text "code"]),
             Html.elem "a" none ["viewcode-back"] (htmlListOf [Html.text "back"])]⟩
        "/p.html" "Cls.meth"
      = Res.ok "code" :=
  (claim6_extraction_amended
      ⟨fun u => if u = "/p.html" then some "raw" else none, fun _ => none,
        fun _ => htmlListOf
          [Html.elem "div" (some "Cls.meth") [] (htmlListOf [Html.text "code"]),
           Html.elem "a" none ["viewcode-back"] (htmlListOf [Html.text "back"])]⟩
      "/p.html" "Cls.meth" "raw" (by rfl)).trans
    (by
      decide)

/-- C10: when the fetched page parses to a document holding no `div`
whose id equals the computed anchor, `_get_source_code` neither returns
a string nor raises any declared error kind: it faults (the
`None.getText()` AttributeError). -/
theorem claim10_missing_div_fault (env : Env) (uri anchor c : String)
    (hfetch : (if isAbs uri then env.files uri else env.net uri) = some c)
    (hnodiv : hasDivId (env.parse c) anchor = false) :
    _get_source_code env uri anchor = Res.fault
    ∧ (∀ s, _get_source_code env uri anchor ≠ Res.ok s)
    ∧ (∀ e, _get_source_code env uri anchor ≠ Res.err e) := by
  have hmain : _get_source_code env uri anchor = Res.fault := by
    by_cases habs : isAbs uri = true
    · rw [if_pos habs] at hfetch
      rw [_get_source_code, if_pos habs, hfetch]
      exact extractFromHtml_fault hnodiv
    · rw [if_neg habs] at hfetch
      rw [_get_source_code, if_neg habs, hfetch]
      exact extractFromHtml_fault hnodiv
  refine ⟨hmain, ?_, ?_⟩
  · intro s h
    rw [hmain] at h
    cases h
  · intro e h
    rw [hmain] at h
    cases h

/-- C10 witness: a remote page whose only id-bearing element is a
`span` makes the pipeline fault. -/
theorem claim10_missing_div_fault_witness :
    _get_source_code
        ⟨fun _ => none, fun _ => some "raw",
          fun _ => htmlListOf [Html.elem "span" (some "x") [] (htmlListOf [Html.text "code"])]⟩
        "http://x/p.html" "x"
      = Res.fault :=
  (claim10_missing_div_fault
      ⟨fun _ => none, fun _ => some "raw",
        fun _ => htmlListOf [Html.elem "span" (some "x") [] (htmlListOf [Html.text "code"])]⟩
      "http://x/p.html" "x" "raw" (by rfl) (by decide)).1

/-- C4 witness: a concrete pipeline run whose inventory URI base
matches no configured root fails with `rootNotFound` carrying the
sorted candidate roots. -/
theorem claim4_root_resolution_witness :
    get_source_code
        (some ⟨some [("proj", MappingValue.seq ["http://other", "inv"])],
          some [("py:function", [("pkg.mod.f", ("P", "1", "http://base/page#pkg.mod.f", "-"))])]⟩)
        ⟨fun _ => none, fun _ => none, fun _ => HtmlList.nil⟩ "py:function" "pkg.mod.f"
      = Res.err (.rootNotFound "http://base/page" (sortStrings ["http://other"])) :=
  ((claim4_root_resolution).2
      (some ⟨some [("proj", MappingValue.seq ["http://other", "inv"])],
        some [("py:function", [("pkg.mod.f", ("P", "1", "http://base/page#pkg.mod.f", "-"))])]⟩)
      ⟨fun _ => none, fun _ => none, fun _ => HtmlList.nil⟩ "py:function" "pkg.mod.f"
      [("py:function", [("pkg.mod.f", ("P", "1", "http://base/page#pkg.mod.f", "-"))])]
      "http://base/page#pkg.mod.f" "http://base/page" "pkg.mod.f" ["http://other"]
      rfl (by simp) rfl rfl rfl (by decide)).1
